import Mathlib

/-!
Shallow embedding of the SPSC circular buffer from src/src/spsc/mod.rs.

The Rust structure CircularBuffer holds:
  seqno (AtomicUsize), data (Vec of 2N+1 cells), size N,
  write_to (Vec of N atomic flag words, each packing (cell index << 16) + low
  16 bits of a sequence number), read_from (Vec of N cell indices owned by the
  consumer), write_tmp (the spare cell index owned by the producer), max_read
  (declared but never used by the code).

Machine integers are modelled as Nat with explicit reduction modulo 2^64
wherever the Rust usize arithmetic can wrap (flag packing, seqno increment).
Panicking branches are modelled as Option.none.  Compare-and-swap in a
sequential run always succeeds on the first attempt (the value cannot change
between the load and the CAS); in the consumer loop we keep an explicit
oracle telling which CAS attempts succeed, so that the early-exit behaviour
on contention is representable.
-/

/-- 2^64, the modulus of usize arithmetic on a 64-bit machine. -/
def U64 : Nat := 2 ^ 64

/-- 2^16, the divisor used by the 16-bit flag packing (x << 16, x & 0xffff). -/
def TAGMOD : Nat := 65536

structure CircularBuffer (α : Type) where
  seqno : Nat
  data : List α
  size : Nat
  write_to : List Nat
  read_from : List Nat
  write_tmp : Nat
  max_read : Nat
deriving Repr, DecidableEq

structure CircularBufferIterator (α : Type) where
  data : List α
  revpos : List Nat
  count : Nat
deriving Repr, DecidableEq

namespace CircularBuffer

/-- CircularBuffer::new. Panics (none) on size 0; otherwise allocates 2*size+1
cells holding the default value, descriptor i = (1+i) << 16, recovery cell i =
1+size+i, spare cell 0, seqno 0. -/
def new (size : Nat) (default_value : α) : Option (CircularBuffer α) :=
  if size = 0 then none
  else some {
    seqno := 0
    data := List.replicate (size * 2 + 1) default_value
    size := size
    write_to := (List.range size).map (fun i => ((1 + i) * TAGMOD) % U64)
    read_from := (List.range size).map (fun i => 1 + size + i)
    write_tmp := 0
    max_read := 0 }

/-- CircularBuffer::put in a sequential run: the producer CAS on the
descriptor cannot fail (no concurrent claim), so the loop body runs once.
The setter mutates the spare cell in place; out-of-bounds indices are the
panic branches, modelled as none.  Returns the updated buffer together with
the value the Rust fetch_add returns, i.e. the sequence number BEFORE the
increment. -/
def put (cb : CircularBuffer α) (setter : α → α) : Option (CircularBuffer α × Nat) :=
  match cb.data[cb.write_tmp]? with
  | none => none
  | some v0 =>
    let data1 := cb.data.set cb.write_tmp (setter v0)
    let seqno := cb.seqno
    let pos := seqno % cb.size
    match cb.write_to[pos]? with
    | none => none
    | some old_flag =>
      let old_pos := old_flag / TAGMOD
      let new_flag := (cb.write_tmp * TAGMOD + seqno % TAGMOD) % U64
      some ({ cb with
                data := data1
                write_to := cb.write_to.set pos new_flag
                write_tmp := old_pos
                seqno := (seqno + 1) % U64 }, seqno)

/-- One successful claim step of the consumer loop in CircularBuffer::iter:
exchange descriptor[(s-1) % size] with the recovery cell read_from[count],
keeping the descriptor tag.  none models the two panic branches. -/
def claimStep (cb : CircularBuffer α) (s count : Nat) : Option (CircularBuffer α) :=
  match cb.read_from[count]? with
  | none => none
  | some r =>
    match cb.write_to[(s - 1) % cb.size]? with
    | none => none
    | some old_flag =>
      let old_pos := old_flag / TAGMOD
      let old_seq := old_flag % TAGMOD
      let new_flag := (r * TAGMOD + old_seq % TAGMOD) % U64
      some { cb with
               write_to := cb.write_to.set ((s - 1) % cb.size) new_flag
               read_from := cb.read_from.set count old_pos }

/-- The loop of CircularBuffer::iter.  The oracle ok tells whether the CAS of
the step at a given count succeeds (true unless a concurrent publish moved
the descriptor between the load and the CAS); on failure the loop breaks at
once.  Returns the updated buffer and the number of claimed items. -/
def iterLoopAux (ok : Nat → Bool) : Nat → CircularBuffer α → Nat →
    Option (CircularBuffer α × Nat)
  | 0, cb, count => some (cb, count)
  | s + 1, cb, count =>
    if count ≥ cb.size then some (cb, count)
    else if ok count then
      match claimStep cb (s + 1) count with
      | none => none
      | some cb2 => iterLoopAux ok s cb2 (count + 1)
    else some (cb, count)

def iterLoop (cb : CircularBuffer α) (ok : Nat → Bool) (s count : Nat) :
    Option (CircularBuffer α × Nat) :=
  iterLoopAux ok s cb count

/-- CircularBuffer::iter: run the claim loop from the current sequence number
and hand the claimed prefix of read_from to the iterator. -/
def iter (cb : CircularBuffer α) (ok : Nat → Bool) :
    Option (CircularBuffer α × CircularBufferIterator α) :=
  match iterLoop cb ok cb.seqno 0 with
  | none => none
  | some (cb2, count) =>
    some (cb2, { data := cb2.data, revpos := cb2.read_from, count := count })

end CircularBuffer

namespace CircularBufferIterator

/-- Iterator::next for CircularBufferIterator: yields data[revpos[count-1]]
and decrements count; returns (none, it) when exhausted.  The outer none
models an out-of-bounds panic of the slice indexing. -/
def next (it : CircularBufferIterator α) : Option (Option α × CircularBufferIterator α) :=
  if it.count > 0 then
    match it.revpos[it.count - 1]? with
    | none => none
    | some pos =>
      match it.data[pos]? with
      | none => none
      | some v => some (some v, { it with count := it.count - 1 })
  else some (none, it)

/-- Collect all items the iterator yields, in yield order (oldest claimed
first).  This is what a for loop over the iterator observes. -/
def toListAux (data : List α) (revpos : List Nat) : Nat → Option (List α)
  | 0 => some []
  | c + 1 =>
    match revpos[c]? with
    | none => none
    | some pos =>
      match data[pos]? with
      | none => none
      | some v => (toListAux data revpos c).map (fun l => v :: l)

def toList (it : CircularBufferIterator α) : Option (List α) :=
  toListAux it.data it.revpos it.count

end CircularBufferIterator

namespace CircularBuffer

/-- Drain: run iter and collect the drain view into a list. -/
def drain (cb : CircularBuffer α) (ok : Nat → Bool) :
    Option (CircularBuffer α × List α) :=
  match cb.iter ok with
  | none => none
  | some (cb2, it) =>
    match it.toList with
    | none => none
    | some l => some (cb2, l)

/-- Sequential sequence of put calls, each writing one given value. -/
def putList (cb : CircularBuffer α) (vs : List α) : Option (CircularBuffer α) :=
  vs.foldl (fun o v => o.bind (fun b => (b.put (fun _ => v)).map Prod.fst)) (some cb)

/-- The oracle of a run without contention: every CAS succeeds. -/
def noContention : Nat → Bool := fun _ => true

/-- The arena cell indices currently referenced by the descriptor entries
(the high 48 bits of each packed flag word). -/
def descCells (cb : CircularBuffer α) : List Nat :=
  cb.write_to.map (fun f => f / TAGMOD)

/-- The partition invariant: the spare cell, the cells referenced by the
descriptors and the cells held in the recovery array together form, as a
multiset, exactly the full arena index range 0 .. 2N.  Multiset equality to
a duplicate-free range expresses at once that the three sets are pairwise
disjoint, internally duplicate-free, and cover all 2N+1 cells. -/
def Partition (cb : CircularBuffer α) : Prop :=
  (cb.write_tmp ::ₘ (↑(descCells cb) : Multiset Nat) + (↑cb.read_from : Multiset Nat)) =
    (↑(List.range (cb.size * 2 + 1)) : Multiset Nat)

/-- Well-formedness of a buffer state: positive machine-representable size,
field lengths as allocated by new, a sequence number that fits in usize, and
the partition invariant.  Established by new and preserved by put and by the
drain loop. -/
structure WF (cb : CircularBuffer α) : Prop where
  size_pos : 1 ≤ cb.size
  size_small : cb.size * 2 + 1 ≤ 2 ^ 48
  seqno_lt : cb.seqno < U64
  data_len : cb.data.length = cb.size * 2 + 1
  write_to_len : cb.write_to.length = cb.size
  read_from_len : cb.read_from.length = cb.size
  part : Partition cb

/-- Run a given number of drain calls in sequence (no contention), collecting
the list each drain view yields. -/
def drainN : Nat → CircularBuffer α → Option (List (List α))
  | 0, _ => some []
  | k + 1, cb =>
    match cb.drain noContention with
    | none => none
    | some (cb2, l) => (drainN k cb2).map (fun ls => l :: ls)

/-- A whole sequential scenario: construct with the given capacity and
default, put the given values one by one, then drain the given number of
times; return the drain results in call order. -/
def seqRun (size : Nat) (default_value : α) (vs : List α) (drains : Nat) :
    Option (List (List α)) :=
  match new size default_value with
  | none => none
  | some cb0 =>
    match putList cb0 vs with
    | none => none
    | some cb1 => drainN drains cb1

end CircularBuffer

namespace CircularBuffer

/-- After the sequence of writes vs, the descriptor entry of the logical
position of the j-th most recent write references a cell whose payload is
that write's value, for every j below min (number of writes) capacity. -/
def TracksLast (cb : CircularBuffer α) (vs : List α) : Prop :=
  ∀ j, j < min vs.length cb.size →
    ∃ f, cb.write_to[(vs.length - 1 - j) % cb.size]? = some f ∧
      cb.data[f / TAGMOD]? = vs[vs.length - 1 - j]?

end CircularBuffer

/-- A concrete capacity-1 buffer as built by new 1 0. -/
def exB0 : CircularBuffer Int := ⟨0, [0, 0, 0], 1, [65536], [2], 0, 0⟩

/-- The buffer exB0 after one put of the value 5. -/
def exB1 : CircularBuffer Int := ⟨1, [5, 0, 0], 1, [0], [2], 1, 0⟩

/-- The buffer exB1 after one uncontended drain claimed its single item. -/
def exB2 : CircularBuffer Int := ⟨1, [5, 0, 0], 1, [131072], [0], 1, 0⟩

/-- The drain view the drain of exB1 hands out. -/
def exIt : CircularBufferIterator Int := ⟨[5, 0, 0], [0], 1⟩

namespace CircularBuffer

/-- The loop equation in the shape of the source loop: stop when count hits
the capacity or the working sequence number hits 0; otherwise attempt one
claim and continue one position back. -/
theorem iterLoop_eq (cb : CircularBuffer α) (ok : Nat → Bool) (s count : Nat) :
    iterLoop cb ok s count =
      if count ≥ cb.size ∨ s = 0 then some (cb, count)
      else if ok count then
        match claimStep cb s count with
        | none => none
        | some cb2 => iterLoop cb2 ok (s - 1) (count + 1)
      else some (cb, count) := by
  cases s with
  | zero => rw [if_pos (Or.inr rfl)]; rfl
  | succ s2 =>
    by_cases hc : count ≥ cb.size
    · rw [if_pos (Or.inl hc)]
      rw [iterLoop]
      rw [iterLoopAux, if_pos hc]
    · rw [if_neg (by omega)]
      rw [iterLoop]
      rw [iterLoopAux, if_neg hc]
      rfl

end CircularBuffer

/-- Packing then unpacking the cell index of a flag word recovers the index,
for any machine-representable cell index (below 2^48). -/
theorem flag_decode (c t : Nat) (hc : c < 2 ^ 48) :
    (c * TAGMOD + t % TAGMOD) % U64 / TAGMOD = c := by
  simp only [TAGMOD, U64]
  have h1 : t % 65536 < 65536 := Nat.mod_lt _ (by norm_num)
  have h2 : c * 65536 + t % 65536 < 2 ^ 64 := by nlinarith
  rw [Nat.mod_eq_of_lt h2]
  omega

/-- A flag word built with a zero tag carries tag 0, with or without usize
wraparound. -/
theorem flag_zero_tag (x : Nat) : (x * TAGMOD) % U64 % TAGMOD = 0 := by
  simp only [TAGMOD, U64]
  omega

/-- Exchanging one list entry for a fresh value: the removed entry together
with the updated list is a permutation of the fresh value together with the
old list. This is the shape of both CAS exchanges of the protocol. -/
theorem getElem_cons_set_perm (l : List Nat) (i : Nat) (hi : i < l.length) (a : Nat) :
    List.Perm (l[i] :: l.set i a) (a :: l) := by
  induction l generalizing i with
  | nil => simp at hi
  | cons x xs ih =>
    cases i with
    | zero => simpa using List.Perm.swap a x xs
    | succ j =>
      have hj : j < xs.length := by simpa using hi
      simp only [List.getElem_cons_succ, List.set_cons_succ]
      exact List.Perm.trans (List.Perm.swap ..)
        (List.Perm.trans (List.Perm.cons x (ih j hj)) (List.Perm.swap ..))

/-- Multiset form of the exchange lemma. -/
theorem multiset_cons_set (l : List Nat) (i : Nat) (hi : i < l.length) (a : Nat) :
    (l[i] ::ₘ (↑(l.set i a) : Multiset Nat)) = a ::ₘ (↑l : Multiset Nat) := by
  have h := Multiset.coe_eq_coe.mpr (getElem_cons_set_perm l i hi a)
  simpa using h



namespace CircularBuffer

/-- The spare cell index is a valid arena index. -/
theorem Partition.write_tmp_lt {cb : CircularBuffer α} (h : Partition cb) :
    cb.write_tmp < cb.size * 2 + 1 := by
  have hm : cb.write_tmp ∈
      (cb.write_tmp ::ₘ (↑(descCells cb) : Multiset Nat) + (↑cb.read_from : Multiset Nat)) := by
    simp
  rw [h] at hm
  simpa using hm

/-- Every cell referenced by a descriptor entry is a valid arena index. -/
theorem Partition.desc_lt {cb : CircularBuffer α} (h : Partition cb)
    {x : Nat} (hx : x ∈ descCells cb) : x < cb.size * 2 + 1 := by
  have hm : x ∈
      (cb.write_tmp ::ₘ (↑(descCells cb) : Multiset Nat) + (↑cb.read_from : Multiset Nat)) := by
    simp [hx]
  rw [h] at hm
  simpa using hm

/-- Every cell held in the recovery array is a valid arena index. -/
theorem Partition.read_lt {cb : CircularBuffer α} (h : Partition cb)
    {x : Nat} (hx : x ∈ cb.read_from) : x < cb.size * 2 + 1 := by
  have hm : x ∈
      (cb.write_tmp ::ₘ (↑(descCells cb) : Multiset Nat) + (↑cb.read_from : Multiset Nat)) := by
    simp [hx]
  rw [h] at hm
  simpa using hm

/-- The spare cell is not referenced by any descriptor entry. -/
theorem Partition.write_tmp_notin_desc {cb : CircularBuffer α} (h : Partition cb) :
    cb.write_tmp ∉ descCells cb := by
  have hnd : (cb.write_tmp ::ₘ (↑(descCells cb) : Multiset Nat) +
      (↑cb.read_from : Multiset Nat)).Nodup := by
    rw [h]
    simpa using List.nodup_range (cb.size * 2 + 1)
  intro hmem
  rw [Multiset.cons_add] at hnd
  exact (Multiset.nodup_cons.mp hnd).1 (by simp [hmem])

end CircularBuffer

/-- Splitting a contiguous range in two. -/
theorem range'_split (s m n : Nat) :
    List.range' s m ++ List.range' (s + m) n = List.range' s (m + n) := by
  rw [Nat.add_comm m n]
  simpa using List.range'_append s m n 1

namespace CircularBuffer

/-- The list actually stored in the descriptor table by new. -/
theorem new_write_to (size : Nat) (d : α) {cb : CircularBuffer α}
    (h : new size d = some cb) :
    cb.write_to = (List.range size).map (fun i => ((1 + i) * TAGMOD) % U64) := by
  by_cases hz : size = 0
  · simp [new, hz] at h
  · simp [new, hz] at h
    rw [← h]

/-- The cells the descriptor table of a fresh buffer references are exactly
1, 2, ..., size, provided the size is machine representable. -/
theorem new_descCells (size : Nat) (d : α) {cb : CircularBuffer α}
    (hsmall : size * 2 + 1 ≤ 2 ^ 48) (h : new size d = some cb) :
    descCells cb = (List.range size).map (fun i => 1 + i) := by
  rw [descCells, new_write_to size d h, List.map_map]
  refine List.map_congr_left (fun i hi => ?_)
  have hi2 : i < size := List.mem_range.mp hi
  have hc : 1 + i < 2 ^ 48 := by omega
  have := flag_decode (1 + i) 0 hc
  simpa [TAGMOD] using this

/-- Full characterization of a successful construction. -/
theorem new_spec (size : Nat) (d : α) (hpos : 1 ≤ size) :
    new size d = some
      { seqno := 0
        data := List.replicate (size * 2 + 1) d
        size := size
        write_to := (List.range size).map (fun i => ((1 + i) * TAGMOD) % U64)
        read_from := (List.range size).map (fun i => 1 + size + i)
        write_tmp := 0
        max_read := 0 } := by
  have hz : size ≠ 0 := by omega
  simp [new, hz]

/-- The contiguous initial labeling: cell 0 spare, cells 1..size descriptors,
cells size+1..2*size recovery. -/
theorem init_labels_cover (size : Nat) :
    0 :: ((List.range size).map (fun i => 1 + i) ++
      (List.range size).map (fun i => 1 + size + i)) = List.range (size * 2 + 1) := by
  have e1 : (List.range size).map (fun i => 1 + i) = List.range' 1 size := by
    rw [List.range'_eq_map_range]
  have e2 : (List.range size).map (fun i => 1 + size + i) = List.range' (1 + size) size := by
    rw [List.range'_eq_map_range]
  rw [e1, e2, List.range_eq_range', range'_split]
  have e5 : List.range' 0 (size + size + 1) = 0 :: List.range' 1 (size + size) := by
    simpa using List.range'_succ 0 (size + size) 1
  have e6 : size * 2 + 1 = size + size + 1 := by omega
  rw [e6, e5]

/-- A fresh buffer satisfies the partition invariant. -/
theorem new_partition (size : Nat) (d : α) {cb : CircularBuffer α}
    (hpos : 1 ≤ size) (hsmall : size * 2 + 1 ≤ 2 ^ 48)
    (h : new size d = some cb) : Partition cb := by
  have hcb : cb = { seqno := 0
                    data := List.replicate (size * 2 + 1) d
                    size := size
                    write_to := (List.range size).map (fun i => ((1 + i) * TAGMOD) % U64)
                    read_from := (List.range size).map (fun i => 1 + size + i)
                    write_tmp := 0
                    max_read := 0 } := by
    have hs := new_spec size d hpos
    rw [hs] at h
    exact (Option.some.inj h).symm
  have hdesc := new_descCells size d hsmall h
  rw [Partition, hdesc]
  rw [hcb]
  have hlist := init_labels_cover size
  calc (0 ::ₘ (↑((List.range size).map (fun i => 1 + i)) : Multiset Nat)) +
        (↑((List.range size).map (fun i => 1 + size + i)) : Multiset Nat)
      = (↑(0 :: ((List.range size).map (fun i => 1 + i) ++
          (List.range size).map (fun i => 1 + size + i))) : Multiset Nat) := by
        simp [Multiset.cons_add]
    _ = (↑(List.range (size * 2 + 1)) : Multiset Nat) := by rw [hlist]

/-- A fresh buffer of positive, machine-representable size is well formed. -/
theorem new_WF (size : Nat) (d : α) {cb : CircularBuffer α}
    (hpos : 1 ≤ size) (hsmall : size * 2 + 1 ≤ 2 ^ 48)
    (h : new size d = some cb) : WF cb := by
  have hpart := new_partition size d hpos hsmall h
  have hcb : cb = { seqno := 0
                    data := List.replicate (size * 2 + 1) d
                    size := size
                    write_to := (List.range size).map (fun i => ((1 + i) * TAGMOD) % U64)
                    read_from := (List.range size).map (fun i => 1 + size + i)
                    write_tmp := 0
                    max_read := 0 } := by
    have hs := new_spec size d hpos
    rw [hs] at h
    exact (Option.some.inj h).symm
  refine ⟨?_, ?_, ?_, ?_, ?_, ?_, hpart⟩ <;> rw [hcb] <;> simp [U64] <;> omega

end CircularBuffer

namespace CircularBuffer

/-- In a well-formed state the two indexings of put are in bounds, the CAS
succeeds at once (sequential run) and the result is fully determined. -/
theorem put_eq_some (cb : CircularBuffer α) (setter : α → α) (h : WF cb) :
    ∃ v0 f, cb.data[cb.write_tmp]? = some v0 ∧
      cb.write_to[cb.seqno % cb.size]? = some f ∧
      cb.put setter = some
        ({ cb with
             data := cb.data.set cb.write_tmp (setter v0)
             write_to := cb.write_to.set (cb.seqno % cb.size)
               ((cb.write_tmp * TAGMOD + cb.seqno % TAGMOD) % U64)
             write_tmp := f / TAGMOD
             seqno := (cb.seqno + 1) % U64 }, cb.seqno) := by
  have hwt : cb.write_tmp < cb.data.length := by
    rw [h.data_len]; exact h.part.write_tmp_lt
  have hpl : cb.seqno % cb.size < cb.write_to.length := by
    rw [h.write_to_len]; exact Nat.mod_lt _ (by have := h.size_pos; omega)
  have hv : cb.data[cb.write_tmp]? = some (cb.data.get ⟨cb.write_tmp, hwt⟩) :=
    List.getElem?_eq_getElem hwt
  have hf : cb.write_to[cb.seqno % cb.size]? =
      some (cb.write_to.get ⟨cb.seqno % cb.size, hpl⟩) :=
    List.getElem?_eq_getElem hpl
  refine ⟨_, _, hv, hf, ?_⟩
  simp only [put, hv, hf]

/-- put succeeds on a well-formed state, keeps it well formed, returns the
old sequence number, bumps the counter by one modulo the word size, and
leaves size, recovery array and max_read untouched. -/
theorem put_WF {cb : CircularBuffer α} {setter : α → α} {cb2 : CircularBuffer α} {r : Nat}
    (h : WF cb) (hput : cb.put setter = some (cb2, r)) :
    WF cb2 ∧ r = cb.seqno ∧ cb2.seqno = (cb.seqno + 1) % U64 ∧ cb2.size = cb.size ∧
      cb2.read_from = cb.read_from ∧ cb2.max_read = cb.max_read := by
  obtain ⟨v0, f, hv, hf, heq⟩ := put_eq_some cb setter h
  rw [heq] at hput
  have hp := Option.some.inj hput
  rw [Prod.ext_iff] at hp
  obtain ⟨h1, h2⟩ := hp
  subst h1
  subst h2
  have hpl : cb.seqno % cb.size < cb.write_to.length := by
    rw [h.write_to_len]; exact Nat.mod_lt _ (by have := h.size_pos; omega)
  have hposd : cb.seqno % cb.size < (descCells cb).length := by
    simpa [descCells] using hpl
  have hwt48 : cb.write_tmp < 2 ^ 48 := by
    have := h.part.write_tmp_lt
    have := h.size_small
    omega
  have hdec : ((cb.write_tmp * TAGMOD + cb.seqno % TAGMOD) % U64) / TAGMOD = cb.write_tmp :=
    flag_decode _ _ hwt48
  have hfval : f = cb.write_to.get ⟨cb.seqno % cb.size, hpl⟩ := by
    rw [List.getElem?_eq_getElem hpl] at hf
    exact (Option.some.inj hf).symm
  have hpart : Partition
      { cb with
          data := cb.data.set cb.write_tmp (setter v0)
          write_to := cb.write_to.set (cb.seqno % cb.size)
            ((cb.write_tmp * TAGMOD + cb.seqno % TAGMOD) % U64)
          write_tmp := f / TAGMOD
          seqno := (cb.seqno + 1) % U64 } := by
    rw [Partition]
    simp only [descCells, List.map_set]
    rw [hdec]
    have hfd : f / TAGMOD = (descCells cb).get ⟨cb.seqno % cb.size, hposd⟩ := by
      rw [hfval]
      simp [descCells]
    rw [hfd]
    have hswap := multiset_cons_set (descCells cb) (cb.seqno % cb.size) hposd cb.write_tmp
    calc ((descCells cb).get ⟨cb.seqno % cb.size, hposd⟩ ::ₘ
            (↑((cb.write_to.map (fun f => f / TAGMOD)).set (cb.seqno % cb.size) cb.write_tmp) :
              Multiset Nat)) + (↑cb.read_from : Multiset Nat)
        = (cb.write_tmp ::ₘ (↑(descCells cb) : Multiset Nat)) +
            (↑cb.read_from : Multiset Nat) := by
          rw [← hswap]
          rfl
      _ = ↑(List.range (cb.size * 2 + 1)) := h.part
  refine ⟨⟨h.size_pos, h.size_small, ?_, ?_, ?_, ?_, hpart⟩, rfl, rfl, rfl, rfl, rfl⟩
  · exact Nat.mod_lt _ (by rw [U64]; positivity)
  · simpa using h.data_len
  · simpa using h.write_to_len
  · exact h.read_from_len

end CircularBuffer

namespace CircularBuffer

/-- In a well-formed state with count below capacity the two indexings of a
claim step are in bounds and the step is fully determined. -/
theorem claimStep_eq_some (cb : CircularBuffer α) (s count : Nat)
    (h : WF cb) (hc : count < cb.size) :
    ∃ r f, cb.read_from[count]? = some r ∧
      cb.write_to[(s - 1) % cb.size]? = some f ∧
      cb.claimStep s count = some
        { cb with
            write_to := cb.write_to.set ((s - 1) % cb.size)
              ((r * TAGMOD + f % TAGMOD % TAGMOD) % U64)
            read_from := cb.read_from.set count (f / TAGMOD) } := by
  have hrl : count < cb.read_from.length := by rw [h.read_from_len]; exact hc
  have hpl : (s - 1) % cb.size < cb.write_to.length := by
    rw [h.write_to_len]; exact Nat.mod_lt _ (by have := h.size_pos; omega)
  have hr : cb.read_from[count]? = some (cb.read_from.get ⟨count, hrl⟩) :=
    List.getElem?_eq_getElem hrl
  have hf : cb.write_to[(s - 1) % cb.size]? =
      some (cb.write_to.get ⟨(s - 1) % cb.size, hpl⟩) :=
    List.getElem?_eq_getElem hpl
  refine ⟨_, _, hr, hf, ?_⟩
  simp only [claimStep, hr, hf]

/-- A successful claim step keeps the state well formed and changes only the
descriptor table and the recovery array. -/
theorem claimStep_WF {cb cb2 : CircularBuffer α} {s count : Nat}
    (h : WF cb) (hc : count < cb.size) (hstep : cb.claimStep s count = some cb2) :
    WF cb2 ∧ cb2.data = cb.data ∧ cb2.seqno = cb.seqno ∧ cb2.size = cb.size ∧
      cb2.write_tmp = cb.write_tmp ∧ cb2.max_read = cb.max_read := by
  obtain ⟨r, f, hr, hf, heq⟩ := claimStep_eq_some cb s count h hc
  rw [heq] at hstep
  have hcb2 := Option.some.inj hstep
  subst hcb2
  have hrl : count < cb.read_from.length := by rw [h.read_from_len]; exact hc
  have hpl : (s - 1) % cb.size < cb.write_to.length := by
    rw [h.write_to_len]; exact Nat.mod_lt _ (by have := h.size_pos; omega)
  have hposd : (s - 1) % cb.size < (descCells cb).length := by
    simpa [descCells] using hpl
  have hrval : r = cb.read_from.get ⟨count, hrl⟩ := by
    rw [List.getElem?_eq_getElem hrl] at hr
    exact (Option.some.inj hr).symm
  have hfval : f = cb.write_to.get ⟨(s - 1) % cb.size, hpl⟩ := by
    rw [List.getElem?_eq_getElem hpl] at hf
    exact (Option.some.inj hf).symm
  have hr48 : r < 2 ^ 48 := by
    have hmem : r ∈ cb.read_from := by rw [hrval]; exact List.getElem_mem hrl
    have := h.part.read_lt hmem
    have := h.size_small
    omega
  have hdec : ((r * TAGMOD + f % TAGMOD % TAGMOD) % U64) / TAGMOD = r :=
    flag_decode _ _ hr48
  have hfd : f / TAGMOD = (descCells cb).get ⟨(s - 1) % cb.size, hposd⟩ := by
    rw [hfval]
    simp [descCells]
  have hpart : Partition
      { cb with
          write_to := cb.write_to.set ((s - 1) % cb.size)
            ((r * TAGMOD + f % TAGMOD % TAGMOD) % U64)
          read_from := cb.read_from.set count (f / TAGMOD) } := by
    rw [Partition]
    simp only [descCells, List.map_set]
    rw [hdec, hfd]
    have hswap1 := multiset_cons_set (descCells cb) ((s - 1) % cb.size) hposd r
    have hswap2 := multiset_cons_set cb.read_from count hrl
      ((descCells cb).get ⟨(s - 1) % cb.size, hposd⟩)
    have hsum : (↑((cb.write_to.map (fun f => f / TAGMOD)).set ((s - 1) % cb.size) r) :
          Multiset Nat) +
        (↑(cb.read_from.set count ((descCells cb).get ⟨(s - 1) % cb.size, hposd⟩)) : Multiset Nat) =
        (↑(descCells cb) : Multiset Nat) + (↑cb.read_from : Multiset Nat) := by
      have hD : (↑((cb.write_to.map (fun f => f / TAGMOD)).set ((s - 1) % cb.size) r) :
          Multiset Nat) = (↑((descCells cb).set ((s - 1) % cb.size) r) : Multiset Nat) := by
        rw [descCells]
      rw [hD]
      have h1 : ({(descCells cb).get ⟨(s - 1) % cb.size, hposd⟩} : Multiset Nat) +
          ↑((descCells cb).set ((s - 1) % cb.size) r) =
          ({r} : Multiset Nat) + ↑(descCells cb) := by
        simpa [Multiset.singleton_add] using hswap1
      have h2 : ({cb.read_from.get ⟨count, hrl⟩} : Multiset Nat) +
          ↑(cb.read_from.set count ((descCells cb).get ⟨(s - 1) % cb.size, hposd⟩)) =
          ({(descCells cb).get ⟨(s - 1) % cb.size, hposd⟩} : Multiset Nat) + ↑cb.read_from := by
        simpa [Multiset.singleton_add] using hswap2
      have hrr : ({r} : Multiset Nat) = {cb.read_from.get ⟨count, hrl⟩} := by rw [hrval]
      have hkey : ({(descCells cb).get ⟨(s - 1) % cb.size, hposd⟩} + {r} : Multiset Nat) +
          (↑((descCells cb).set ((s - 1) % cb.size) r) +
            ↑(cb.read_from.set count ((descCells cb).get ⟨(s - 1) % cb.size, hposd⟩))) =
          ({(descCells cb).get ⟨(s - 1) % cb.size, hposd⟩} + {r} : Multiset Nat) +
          (↑(descCells cb) + ↑cb.read_from) := by
        calc ({(descCells cb).get ⟨(s - 1) % cb.size, hposd⟩} + {r} : Multiset Nat) +
              (↑((descCells cb).set ((s - 1) % cb.size) r) +
                ↑(cb.read_from.set count ((descCells cb).get ⟨(s - 1) % cb.size, hposd⟩)))
            = (({(descCells cb).get ⟨(s - 1) % cb.size, hposd⟩} : Multiset Nat) +
                ↑((descCells cb).set ((s - 1) % cb.size) r)) +
              (({r} : Multiset Nat) +
                ↑(cb.read_from.set count ((descCells cb).get ⟨(s - 1) % cb.size, hposd⟩))) := by
              abel
          _ = (({r} : Multiset Nat) + ↑(descCells cb)) +
              (({(descCells cb).get ⟨(s - 1) % cb.size, hposd⟩} : Multiset Nat) + ↑cb.read_from) := by
              rw [h1, hrr, h2]
          _ = ({(descCells cb).get ⟨(s - 1) % cb.size, hposd⟩} + {r} : Multiset Nat) +
              (↑(descCells cb) + ↑cb.read_from) := by
              abel
      exact add_left_cancel hkey
    calc (cb.write_tmp ::ₘ
            (↑((cb.write_to.map (fun f => f / TAGMOD)).set ((s - 1) % cb.size) r) :
              Multiset Nat)) +
          (↑(cb.read_from.set count ((descCells cb).get ⟨(s - 1) % cb.size, hposd⟩)) : Multiset Nat)
        = ({cb.write_tmp} : Multiset Nat) +
            ((↑((cb.write_to.map (fun f => f / TAGMOD)).set ((s - 1) % cb.size) r) :
              Multiset Nat) +
             (↑(cb.read_from.set count ((descCells cb).get ⟨(s - 1) % cb.size, hposd⟩)) :
              Multiset Nat)) := by
          rw [← Multiset.singleton_add]
          abel
      _ = ({cb.write_tmp} : Multiset Nat) +
            ((↑(descCells cb) : Multiset Nat) + (↑cb.read_from : Multiset Nat)) := by
          rw [hsum]
      _ = (cb.write_tmp ::ₘ (↑(descCells cb) : Multiset Nat)) +
            (↑cb.read_from : Multiset Nat) := by
          rw [← Multiset.singleton_add]
          abel
      _ = ↑(List.range (cb.size * 2 + 1)) := h.part
  refine ⟨⟨h.size_pos, h.size_small, h.seqno_lt, h.data_len, ?_, ?_, hpart⟩,
    rfl, rfl, rfl, rfl, rfl⟩
  · simpa using h.write_to_len
  · simpa using h.read_from_len

end CircularBuffer

namespace CircularBuffer

/-- Running the claim loop from a well-formed state: it never hits a panic
branch, keeps the state well formed, changes neither data, seqno, size,
write_tmp nor max_read, and the final count is bounded by the start count
plus the walked positions, by the capacity, and by any index whose CAS the
oracle fails. -/
theorem iterLoop_props (s : Nat) :
    ∀ (cb : CircularBuffer α) (ok : Nat → Bool) (count : Nat), WF cb →
    ∃ cb2 n, iterLoop cb ok s count = some (cb2, n) ∧ WF cb2 ∧
      cb2.data = cb.data ∧ cb2.seqno = cb.seqno ∧ cb2.size = cb.size ∧
      cb2.write_tmp = cb.write_tmp ∧ cb2.max_read = cb.max_read ∧
      count ≤ n ∧ n ≤ count + s ∧ (count ≤ cb.size → n ≤ cb.size) ∧
      (∀ j, ok j = false → count ≤ j → n ≤ j) := by
  induction s using Nat.strong_induction_on with
  | _ s ih =>
    intro cb ok count hwf
    by_cases hstop : count ≥ cb.size ∨ s = 0
    · refine ⟨cb, count, ?_, hwf, rfl, rfl, rfl, rfl, rfl, le_refl _, by omega, by omega,
        fun j _ hcj => hcj⟩
      rw [iterLoop_eq, if_pos hstop]
    · push_neg at hstop
      obtain ⟨hcount, hs⟩ := hstop
      have hclt : count < cb.size := by omega
      by_cases hok : ok count = true
      · obtain ⟨r, f, hr, hf, hstep⟩ := claimStep_eq_some cb s count hwf hclt
        obtain ⟨hwf2, hdata, hseq, hsize, hwtmp, hmax⟩ := claimStep_WF hwf hclt hstep
        obtain ⟨cb3, n, hloop, hwf3, hd3, hs3, hz3, hw3, hm3, hn1, hn2, hn3, hn4⟩ :=
          ih (s - 1) (by omega) _ ok (count + 1) hwf2
        refine ⟨cb3, n, ?_, hwf3, by rw [hd3, hdata], by rw [hs3, hseq],
          by rw [hz3, hsize], by rw [hw3, hwtmp], by rw [hm3, hmax],
          by omega, by omega, ?_, ?_⟩
        · rw [iterLoop_eq, if_neg (by omega), hok, if_pos rfl]
          simp only [hstep]
          exact hloop
        · intro hcs
          exact hn3 (show count + 1 ≤ cb.size by omega)
        · intro j hj hcj
          rcases Nat.eq_or_lt_of_le hcj with hcj2 | hcj2
          · rw [← hcj2] at hj
            rw [hj] at hok
            cases hok
          · exact hn4 j hj (by omega)
      · have hokf : ok count = false := by
          cases h2 : ok count
          · rfl
          · rw [h2] at hok; cases hok rfl
        refine ⟨cb, count, ?_, hwf, rfl, rfl, rfl, rfl, rfl, le_refl _, by omega,
          fun _ => by omega, fun j _ hcj => hcj⟩
        rw [iterLoop_eq, if_neg (by omega), hokf]
        simp

end CircularBuffer

/-- Two backward-walk positions within one window of size N land on distinct
descriptor slots. -/
theorem mod_pos_ne (len j N : Nat) (h1 : 1 ≤ j) (h2 : j < N) (h3 : j ≤ len) :
    (len - j) % N ≠ len % N := by
  intro heq
  have hlen : len = (len - j) + j := by omega
  have hmod : (len - j) + j ≡ (len - j) + 0 [MOD N] := by
    rw [Nat.add_zero, ← hlen]
    rw [Nat.ModEq]
    omega
  have hj0 : j ≡ 0 [MOD N] := (Nat.ModEq.refl (len - j)).add_left_cancel hmod
  have hdvd : N ∣ j := Nat.modEq_zero_iff_dvd.mp hj0
  have := Nat.le_of_dvd (by omega) hdvd
  omega

namespace CircularBuffer

/-- Whenever put succeeds, regardless of well-formedness, it returns the old
sequence number and bumps the stored counter by one modulo the word size,
leaving size, recovery array and max_read untouched. -/
theorem put_seqno {cb cb2 : CircularBuffer α} {setter : α → α} {r : Nat}
    (h : cb.put setter = some (cb2, r)) :
    r = cb.seqno ∧ cb2.seqno = (cb.seqno + 1) % U64 ∧ cb2.size = cb.size ∧
      cb2.read_from = cb.read_from ∧ cb2.max_read = cb.max_read := by
  cases h1 : cb.data[cb.write_tmp]? with
  | none => simp [put, h1] at h
  | some v0 =>
    cases h2 : cb.write_to[cb.seqno % cb.size]? with
    | none => simp [put, h1, h2] at h
    | some f =>
      simp only [put, h1, h2, Option.some.injEq, Prod.mk.injEq] at h
      obtain ⟨hcb, hr⟩ := h
      rw [← hcb, ← hr]
      exact ⟨rfl, rfl, rfl, rfl, rfl⟩

/-- Whenever a claim step succeeds, regardless of well-formedness, it leaves
data, seqno, size, write_tmp and max_read untouched. -/
theorem claimStep_frame {cb cb2 : CircularBuffer α} {s count : Nat}
    (h : cb.claimStep s count = some cb2) :
    cb2.data = cb.data ∧ cb2.seqno = cb.seqno ∧ cb2.size = cb.size ∧
      cb2.write_tmp = cb.write_tmp ∧ cb2.max_read = cb.max_read := by
  cases h1 : cb.read_from[count]? with
  | none => simp [claimStep, h1] at h
  | some r =>
    cases h2 : cb.write_to[(s - 1) % cb.size]? with
    | none => simp [claimStep, h1, h2] at h
    | some f =>
      simp only [claimStep, h1, h2, Option.some.injEq] at h
      rw [← h]
      exact ⟨rfl, rfl, rfl, rfl, rfl⟩

/-- Whenever the claim loop succeeds, regardless of well-formedness, it
leaves data, seqno, size, write_tmp and max_read untouched. -/
theorem iterLoop_frame (s : Nat) :
    ∀ (cb : CircularBuffer α) (ok : Nat → Bool) (count : Nat) (cb2 : CircularBuffer α) (n : Nat),
      iterLoop cb ok s count = some (cb2, n) →
      cb2.data = cb.data ∧ cb2.seqno = cb.seqno ∧ cb2.size = cb.size ∧
        cb2.write_tmp = cb.write_tmp ∧ cb2.max_read = cb.max_read := by
  induction s using Nat.strong_induction_on with
  | _ s ih =>
    intro cb ok count cb2 n h
    by_cases hstop : count ≥ cb.size ∨ s = 0
    · rw [iterLoop_eq, if_pos hstop] at h
      obtain ⟨h1, _⟩ := Prod.mk.injEq .. ▸ Option.some.inj h
      rw [← h1]
      exact ⟨rfl, rfl, rfl, rfl, rfl⟩
    · rw [iterLoop_eq, if_neg hstop] at h
      push_neg at hstop
      obtain ⟨hcount, hs⟩ := hstop
      by_cases hok : ok count = true
      · rw [hok, if_pos rfl] at h
        cases hstep : cb.claimStep s count with
        | none => rw [hstep] at h; cases h
        | some cb1 =>
          rw [hstep] at h
          obtain ⟨hd, hq, hz, hw, hm⟩ := claimStep_frame hstep
          obtain ⟨hd2, hq2, hz2, hw2, hm2⟩ := ih (s - 1) (by omega) cb1 ok (count + 1) cb2 n h
          exact ⟨hd2.trans hd, hq2.trans hq, hz2.trans hz, hw2.trans hw, hm2.trans hm⟩
      · have hokf : ok count = false := by
          cases h2 : ok count
          · rfl
          · exact absurd h2 hok
        rw [hokf] at h
        simp only [Bool.false_eq_true, if_false] at h
        obtain ⟨h1, _⟩ := Prod.mk.injEq .. ▸ Option.some.inj h
        rw [← h1]
        exact ⟨rfl, rfl, rfl, rfl, rfl⟩

/-- putList succeeds from any well-formed state and advances the sequence
counter by the number of values, modulo the word size. -/
theorem putList_seqno : ∀ (vs : List α) (cb : CircularBuffer α), WF cb →
    ∃ cb2, cb.putList vs = some cb2 ∧ WF cb2 ∧
      cb2.seqno = (cb.seqno + vs.length) % U64 ∧ cb2.size = cb.size := by
  intro vs
  induction vs with
  | nil =>
    intro cb hwf
    refine ⟨cb, rfl, hwf, ?_, rfl⟩
    rw [List.length_nil, Nat.add_zero, Nat.mod_eq_of_lt hwf.seqno_lt]
  | cons v vs ih =>
    intro cb hwf
    obtain ⟨v0, f, hv, hf, hput⟩ := put_eq_some cb (fun _ => v) hwf
    obtain ⟨hwf1, _, hseq1, hsize1, _, _⟩ := put_WF hwf hput
    obtain ⟨cb2, hrest, hwf2, hseq2, hsize2⟩ := ih _ hwf1
    refine ⟨cb2, ?_, hwf2, ?_, by rw [hsize2, hsize1]⟩
    · rw [putList] at hrest ⊢
      rw [List.foldl_cons]
      simp only [Option.some_bind, hput, Option.map_some']
      exact hrest
    · rw [hseq2, hseq1, List.length_cons]
      rw [Nat.mod_add_mod]
      congr 1
      omega

end CircularBuffer

namespace CircularBufferIterator

/-- If every claimed slot index is present and points into the data slice,
collecting the iterator succeeds, yields exactly count items, and the item
at output position m is the payload of the slot recorded at recovery index
count-1-m (the iterator walks the recovery array backward). -/
theorem toList_getElem : ∀ (M : Nat) (it : CircularBufferIterator α), it.count = M →
    (∀ i, i < M → ∃ p v, it.revpos[i]? = some p ∧ it.data[p]? = some v) →
    ∃ l, it.toList = some l ∧ l.length = M ∧
      ∀ m, m < M → l[m]? = (it.revpos[M - 1 - m]?).bind (fun p => it.data[p]?) := by
  intro M
  induction M with
  | zero =>
    intro it hc _
    refine ⟨[], ?_, rfl, fun m hm => by omega⟩
    rw [toList, hc]
    rfl
  | succ M ih =>
    intro it hc hin
    obtain ⟨p, v, hp, hv⟩ := hin M (by omega)
    obtain ⟨l, hl, hlen, hget⟩ := ih { it with count := M } rfl
      (fun i hi => hin i (by omega))
    refine ⟨v :: l, ?_, by simp [hlen], ?_⟩
    · rw [toList, hc]
      simp only [toListAux, hp, hv]
      have hl2 : toListAux it.data it.revpos M = some l := hl
      rw [hl2]
      rfl
    · intro m hm
      cases m with
      | zero =>
        simp only [Nat.sub_zero, Nat.add_sub_cancel, List.getElem?_cons_zero, hp,
          Option.some_bind, hv]
      | succ m2 =>
        rw [List.getElem?_cons_succ]
        have := hget m2 (by omega)
        have hidx : M + 1 - 1 - (m2 + 1) = M - 1 - m2 := by omega
        rw [hidx]
        exact this

end CircularBufferIterator

/-- getElem? after setting the same index. -/
theorem getElem?_set_self {β : Type} (l : List β) (i : Nat) (a : β) (h : i < l.length) :
    (l.set i a)[i]? = some a := by
  rw [List.getElem?_set_self']
  simp [List.getElem?_eq_getElem, h]

/-- getElem? of an append, inside the left part. -/
theorem getElem?_append_left {β : Type} (l1 l2 : List β) (i : Nat) (h : i < l1.length) :
    (l1 ++ l2)[i]? = l1[i]? := by
  rw [List.getElem?_append]
  simp [h]

namespace CircularBuffer

/-- putList over an appended single value. -/
theorem putList_concat (cb : CircularBuffer α) (vs : List α) (v : α) :
    cb.putList (vs ++ [v]) =
      (cb.putList vs).bind (fun b => (b.put (fun _ => v)).map Prod.fst) := by
  rw [putList, putList, List.foldl_append, List.foldl_cons, List.foldl_nil]

/-- The main producer invariant: a sequence of puts from a fresh buffer
succeeds, keeps the state well formed, sets the sequence counter to the
number of writes, and leaves the descriptor table tracking the most recent
write of every logical position. -/
theorem putList_invariant : ∀ (vs : List α) (N : Nat) (d : α) (cb0 cb : CircularBuffer α),
    1 ≤ N → N * 2 + 1 ≤ 2 ^ 48 → vs.length < U64 →
    new N d = some cb0 → cb0.putList vs = some cb →
    WF cb ∧ cb.size = N ∧ cb.seqno = vs.length ∧ TracksLast cb vs := by
  intro vs
  induction vs using List.reverseRecOn with
  | nil =>
    intro N d cb0 cb hN hsmall hlen hnew hputs
    have hcb : cb = cb0 := by
      rw [putList, List.foldl_nil] at hputs
      exact (Option.some.inj hputs).symm
    have hwf := new_WF N d hN hsmall hnew
    have hcb0 : cb0 = { seqno := 0
                        data := List.replicate (N * 2 + 1) d
                        size := N
                        write_to := (List.range N).map (fun i => ((1 + i) * TAGMOD) % U64)
                        read_from := (List.range N).map (fun i => 1 + N + i)
                        write_tmp := 0
                        max_read := 0 } := by
      have hs := new_spec N d hN
      rw [hs] at hnew
      exact (Option.some.inj hnew).symm
    rw [hcb]
    refine ⟨hwf, by rw [hcb0], by rw [hcb0]; rfl, ?_⟩
    intro j hj
    simp at hj
  | append_singleton vs v ih =>
    intro N d cb0 cb hN hsmall hlen hnew hputs
    rw [putList_concat] at hputs
    cases hmid : cb0.putList vs with
    | none => rw [hmid] at hputs; cases hputs
    | some cb1 =>
      rw [hmid] at hputs
      simp only [Option.some_bind] at hputs
      have hlen1 : vs.length < U64 := by
        rw [List.length_append, List.length_singleton] at hlen
        omega
      obtain ⟨hwf1, hsize1, hseq1, htr1⟩ := ih N d cb0 cb1 hN hsmall hlen1 hnew hmid
      obtain ⟨v0, f, hv, hf, hput⟩ := put_eq_some cb1 (fun _ => v) hwf1
      rw [hput] at hputs
      simp only [Option.map_some'] at hputs
      have hcb : cb = { cb1 with
          data := cb1.data.set cb1.write_tmp v
          write_to := cb1.write_to.set (cb1.seqno % cb1.size)
            ((cb1.write_tmp * TAGMOD + cb1.seqno % TAGMOD) % U64)
          write_tmp := f / TAGMOD
          seqno := (cb1.seqno + 1) % U64 } := (Option.some.inj hputs).symm
      obtain ⟨hwf, _, _, _, _, _⟩ := put_WF hwf1 hput
      have hlenapp : (vs ++ [v]).length = vs.length + 1 := by
        rw [List.length_append, List.length_singleton]
      have hseq : cb.seqno = (vs ++ [v]).length := by
        rw [hcb]
        show (cb1.seqno + 1) % U64 = (vs ++ [v]).length
        rw [hseq1, hlenapp]
        exact Nat.mod_eq_of_lt (by rw [hlenapp] at hlen; omega)
      have hsize : cb.size = N := by rw [hcb]; exact hsize1
      refine ⟨by rw [hcb]; exact hwf, hsize, hseq, ?_⟩
      have hwtlt : cb1.write_tmp < N * 2 + 1 := by
        have h1 := hwf1.part.write_tmp_lt
        rw [hsize1] at h1
        exact h1
      have hwt48 : cb1.write_tmp < 2 ^ 48 := by omega
      have hwtlen : cb1.write_to.length = N := by rw [hwf1.write_to_len, hsize1]
      have hdlen : cb1.data.length = N * 2 + 1 := by rw [hwf1.data_len, hsize1]
      intro j hj
      rw [hlenapp, hsize] at hj
      have hidx : (vs ++ [v]).length - 1 - j = vs.length - j := by
        rw [hlenapp]; omega
      rw [hidx, hsize]
      by_cases hj0 : j = 0
      · subst hj0
        rw [Nat.sub_zero]
        refine ⟨(cb1.write_tmp * TAGMOD + cb1.seqno % TAGMOD) % U64, ?_, ?_⟩
        · rw [hcb]
          show (cb1.write_to.set (cb1.seqno % cb1.size)
              ((cb1.write_tmp * TAGMOD + cb1.seqno % TAGMOD) % U64))[vs.length % N]? = _
          rw [hseq1, hsize1]
          exact getElem?_set_self _ _ _ (by rw [hwtlen]; exact Nat.mod_lt _ (by omega))
        · rw [flag_decode _ _ hwt48, hcb]
          show (cb1.data.set cb1.write_tmp v)[cb1.write_tmp]? = (vs ++ [v])[vs.length]?
          rw [getElem?_set_self _ _ _ (by omega : cb1.write_tmp < cb1.data.length)]
          exact (List.getElem?_concat_length vs v).symm
      · have hj1 : 1 ≤ j := by omega
        have hjlen : j ≤ vs.length := by omega
        have hjN : j < N := by omega
        have hprev := htr1 (j - 1) (by rw [hsize1]; omega)
        have hidx2 : vs.length - 1 - (j - 1) = vs.length - j := by omega
        rw [hidx2, hsize1] at hprev
        obtain ⟨f1, hf1, hd1⟩ := hprev
        have hne : (vs.length - j) % N ≠ vs.length % N :=
          mod_pos_ne vs.length j N hj1 hjN hjlen
        refine ⟨f1, ?_, ?_⟩
        · rw [hcb]
          show (cb1.write_to.set (cb1.seqno % cb1.size)
              ((cb1.write_tmp * TAGMOD + cb1.seqno % TAGMOD) % U64))[(vs.length - j) % N]? =
            some f1
          rw [hseq1, hsize1]
          rw [List.getElem?_set_ne (fun h => hne h.symm)]
          exact hf1
        · have hmem : f1 ∈ cb1.write_to := List.getElem?_mem hf1
          have hmem2 : f1 / TAGMOD ∈ descCells cb1 := by
            rw [descCells]
            exact List.mem_map_of_mem _ hmem
          have hne2 : cb1.write_tmp ≠ f1 / TAGMOD := by
            intro h
            exact hwf1.part.write_tmp_notin_desc (h ▸ hmem2)
          rw [hcb]
          show (cb1.data.set cb1.write_tmp v)[f1 / TAGMOD]? = (vs ++ [v])[vs.length - j]?
          rw [List.getElem?_set_ne hne2, hd1]
          exact (getElem?_append_left vs [v] _ (by omega)).symm

end CircularBuffer

namespace CircularBuffer

/-- Positional characterization of the uncontended claim loop: starting with
j cells already claimed, it claims the remaining M - j positions walking
backward from sequence number K - j and records, at recovery index i, the
cell referenced by the descriptor of logical position (K-1-i) mod N as it
stood before the drain. -/
theorem iterLoop_drain_steps (cb0 : CircularBuffer α) (K N M : Nat)
    (hN : 1 ≤ N) (hM : M = min K N) :
    ∀ (d j : Nat) (cbj : CircularBuffer α), d = M - j → j ≤ M →
      cbj.size = N → cbj.data = cb0.data →
      cbj.write_to.length = N → cbj.read_from.length = N →
      (∀ p, p < N → (∀ i, i < j → p ≠ (K - 1 - i) % N) →
        cbj.write_to[p]? = cb0.write_to[p]?) →
      (∀ i, i < j → ∃ f, cb0.write_to[(K - 1 - i) % N]? = some f ∧
        cbj.read_from[i]? = some (f / TAGMOD)) →
      ∃ cbF, iterLoop cbj noContention (K - j) j = some (cbF, M) ∧
        cbF.data = cb0.data ∧ cbF.read_from.length = N ∧
        (∀ i, i < M → ∃ f, cb0.write_to[(K - 1 - i) % N]? = some f ∧
          cbF.read_from[i]? = some (f / TAGMOD)) := by
  intro d
  induction d with
  | zero =>
    intro j cbj hd hj hsize hdata hwtl hrfl _ hclaimed
    have hjM : j = M := by omega
    subst hjM
    refine ⟨cbj, ?_, hdata, hrfl, hclaimed⟩
    rw [iterLoop_eq, if_pos (by rw [hsize]; omega)]
  | succ d ihd =>
    intro j cbj hd hj hsize hdata hwtl hrfl huntouched hclaimed
    have hjM : j < M := by omega
    have hjN : j < N := by omega
    have hjK : j < K := by omega
    have hrj : cbj.read_from[j]? = some (cbj.read_from.get ⟨j, by rw [hrfl]; omega⟩) :=
      List.getElem?_eq_getElem (by rw [hrfl]; omega)
    have hposidx : (K - j - 1) % cbj.size = (K - 1 - j) % N := by
      rw [hsize]
      congr 1
      omega
    have hposlt : (K - 1 - j) % N < N := Nat.mod_lt _ (by omega)
    have hdist : ∀ i, i < j → (K - 1 - j) % N ≠ (K - 1 - i) % N := by
      intro i hij
      have h1 : K - 1 - i - (j - i) = K - 1 - j := by omega
      have := mod_pos_ne (K - 1 - i) (j - i) N (by omega) (by omega) (by omega)
      rw [h1] at this
      exact this
    have hsame : cbj.write_to[(K - 1 - j) % N]? = cb0.write_to[(K - 1 - j) % N]? :=
      huntouched _ hposlt hdist
    have hf0 : ∃ f0, cb0.write_to[(K - 1 - j) % N]? = some f0 := by
      have : cbj.write_to[(K - 1 - j) % N]? =
          some (cbj.write_to.get ⟨(K - 1 - j) % N, by rw [hwtl]; exact hposlt⟩) :=
        List.getElem?_eq_getElem (by rw [hwtl]; exact hposlt)
      exact ⟨_, hsame ▸ this⟩
    obtain ⟨f0, hf0⟩ := hf0
    have hfj : cbj.write_to[(K - j - 1) % cbj.size]? = some f0 := by
      rw [hposidx, hsame, hf0]
    have hstep : cbj.claimStep (K - j) j = some
        { cbj with
            write_to := cbj.write_to.set ((K - j - 1) % cbj.size)
              ((cbj.read_from.get ⟨j, by rw [hrfl]; omega⟩ * TAGMOD + f0 % TAGMOD % TAGMOD) % U64)
            read_from := cbj.read_from.set j (f0 / TAGMOD) } := by
      rw [claimStep]
      rw [hrj]
      have harg : (K - j - 1) % cbj.size = (K - j - 1) % cbj.size := rfl
      rw [show cbj.write_to[(K - j - 1) % cbj.size]? = some f0 from hfj]
    have hloopstep : iterLoop cbj noContention (K - j) j =
        iterLoop { cbj with
            write_to := cbj.write_to.set ((K - j - 1) % cbj.size)
              ((cbj.read_from.get ⟨j, by rw [hrfl]; omega⟩ * TAGMOD + f0 % TAGMOD % TAGMOD) % U64)
            read_from := cbj.read_from.set j (f0 / TAGMOD) }
          noContention (K - j - 1) (j + 1) := by
      rw [iterLoop_eq, if_neg (by rw [hsize]; omega)]
      rw [show noContention j = true from rfl, if_pos rfl]
      rw [hstep]
    have hnext := ihd (j + 1)
      { cbj with
          write_to := cbj.write_to.set ((K - j - 1) % cbj.size)
            ((cbj.read_from.get ⟨j, by rw [hrfl]; omega⟩ * TAGMOD + f0 % TAGMOD % TAGMOD) % U64)
          read_from := cbj.read_from.set j (f0 / TAGMOD) }
      (by omega) (by omega) (by simpa using hsize) (by simpa using hdata)
      (by simpa using hwtl) (by simpa using hrfl)
      ?_ ?_
    · obtain ⟨cbF, hloop, hFd, hFr, hFc⟩ := hnext
      refine ⟨cbF, ?_, hFd, hFr, hFc⟩
      rw [hloopstep]
      rw [show K - j - 1 = K - (j + 1) from by omega] at hloop
      exact hloop
    · intro p hp hpne
      show (cbj.write_to.set ((K - j - 1) % cbj.size) _)[p]? = cb0.write_to[p]?
      rw [hposidx]
      rw [List.getElem?_set_ne (fun h => hpne j (by omega) h.symm)]
      exact huntouched p hp (fun i hi => hpne i (by omega))
    · intro i hi
      by_cases hij : i = j
      · subst hij
        refine ⟨f0, hf0, ?_⟩
        show (cbj.read_from.set i (f0 / TAGMOD))[i]? = some (f0 / TAGMOD)
        exact getElem?_set_self _ _ _ (by rw [hrfl]; omega)
      · obtain ⟨f, hfa, hfb⟩ := hclaimed i (by omega)
        refine ⟨f, hfa, ?_⟩
        show (cbj.read_from.set j (f0 / TAGMOD))[i]? = some (f / TAGMOD)
        rw [List.getElem?_set_ne (fun h => hij h.symm)]
        exact hfb

end CircularBuffer

namespace CircularBuffer

/-- Sequential end-to-end: construct, put the values vs, then drain without
contention; the drain view is exactly the last min(K, N) values in original
write order. -/
theorem drain_after_putList (N : Nat) (d : α) (vs : List α) (cb0 cb : CircularBuffer α)
    (hN : 1 ≤ N) (hsmall : N * 2 + 1 ≤ 2 ^ 48) (hlen : vs.length < U64)
    (hnew : new N d = some cb0) (hputs : cb0.putList vs = some cb) :
    ∃ cb2 l, cb.drain noContention = some (cb2, l) ∧
      l.length = min vs.length N ∧
      l = vs.drop (vs.length - min vs.length N) := by
  obtain ⟨hwf, hsize, hseq, htr⟩ := putList_invariant vs N d cb0 cb hN hsmall hlen hnew hputs
  have hsteps := iterLoop_drain_steps cb vs.length N (min vs.length N) hN rfl
    (min vs.length N) 0 cb (by omega) (by omega) hsize rfl
    (by rw [hwf.write_to_len, hsize]) (by rw [hwf.read_from_len, hsize])
    (fun p hp _ => rfl) (fun i hi => absurd hi (by omega))
  obtain ⟨cbF, hloop, hFdata, hFlen, hFc⟩ := hsteps
  rw [Nat.sub_zero] at hloop
  have hiter : cb.iter noContention =
      some (cbF, ⟨cbF.data, cbF.read_from, min vs.length N⟩) := by
    rw [iter, hseq, hloop]
  have hcell : ∀ i, i < min vs.length N →
      ∃ p, cbF.read_from[i]? = some p ∧ cb.data[p]? = vs[vs.length - 1 - i]? := by
    intro i hi
    obtain ⟨f, hfa, hfb⟩ := hFc i hi
    obtain ⟨f2, hfa2, hfd2⟩ := htr i (by rw [hsize]; exact hi)
    rw [hsize] at hfa2
    have hff : f2 = f := Option.some.inj (hfa2.symm.trans hfa)
    subst hff
    exact ⟨f2 / TAGMOD, hfb, hfd2⟩
  have hidxlt : ∀ i, i < min vs.length N → vs.length - 1 - i < vs.length := by
    intro i hi
    omega
  have hin : ∀ i, i < min vs.length N →
      ∃ p v, (⟨cbF.data, cbF.read_from, min vs.length N⟩ :
        CircularBufferIterator α).revpos[i]? = some p ∧
        (⟨cbF.data, cbF.read_from, min vs.length N⟩ :
          CircularBufferIterator α).data[p]? = some v := by
    intro i hi
    obtain ⟨p, hp1, hp2⟩ := hcell i hi
    refine ⟨p, vs.get ⟨vs.length - 1 - i, hidxlt i hi⟩, hp1, ?_⟩
    show cbF.data[p]? = _
    rw [hFdata, hp2]
    exact List.getElem?_eq_getElem (hidxlt i hi)
  obtain ⟨l, htl, hlenl, hget⟩ := CircularBufferIterator.toList_getElem
    (min vs.length N) ⟨cbF.data, cbF.read_from, min vs.length N⟩ rfl hin
  have hdrain : cb.drain noContention = some (cbF, l) := by
    rw [drain, hiter]
    simp only [htl]
  refine ⟨cbF, l, hdrain, hlenl, ?_⟩
  have hdroplen : (vs.drop (vs.length - min vs.length N)).length = min vs.length N := by
    rw [List.length_drop]
    omega
  apply List.ext_getElem?
  intro m
  by_cases hm : m < min vs.length N
  · rw [hget m hm]
    obtain ⟨p, hp1, hp2⟩ := hcell (min vs.length N - 1 - m) (by omega)
    show (cbF.read_from[min vs.length N - 1 - m]?).bind
        (fun q => cbF.data[q]?) = (vs.drop (vs.length - min vs.length N))[m]?
    rw [hp1]
    rw [Option.some_bind, hFdata, hp2]
    rw [List.getElem?_drop]
    congr 1
    omega
  · have h1 : l[m]? = none := by
      rw [List.getElem?_eq_none]
      omega
    have h2 : (vs.drop (vs.length - min vs.length N))[m]? = none := by
      rw [List.getElem?_eq_none]
      rw [hdroplen]
      omega
    rw [h1, h2]

end CircularBuffer

namespace CircularBuffer

/-- Reading of the partition invariant: the three ownership sets are pairwise
disjoint and together cover exactly the arena index range. -/
theorem Partition.disjoint_cover {cb : CircularBuffer α} (h : Partition cb) :
    cb.write_tmp ∉ descCells cb ∧ cb.write_tmp ∉ cb.read_from ∧
    (∀ x, x ∈ descCells cb → x ∉ cb.read_from) ∧
    (∀ x, x < cb.size * 2 + 1 ↔ (x = cb.write_tmp ∨ x ∈ descCells cb ∨ x ∈ cb.read_from)) := by
  have hnd : (cb.write_tmp ::ₘ (↑(descCells cb) : Multiset Nat) +
      (↑cb.read_from : Multiset Nat)).Nodup := by
    rw [h]
    simpa using List.nodup_range (cb.size * 2 + 1)
  rw [Multiset.cons_add] at hnd
  obtain ⟨hwt, hDR⟩ := Multiset.nodup_cons.mp hnd
  have hdisj := (Multiset.nodup_add.mp hDR).2.2
  refine ⟨?_, ?_, ?_, ?_⟩
  · intro hmem
    exact hwt (by simp [hmem])
  · intro hmem
    exact hwt (by simp [hmem])
  · intro x hx hx2
    exact (Multiset.disjoint_left.mp hdisj) (by simpa using hx) (by simpa using hx2)
  · intro x
    constructor
    · intro hx
      have hm : x ∈ (cb.write_tmp ::ₘ (↑(descCells cb) : Multiset Nat) +
          (↑cb.read_from : Multiset Nat)) := by
        rw [h]
        simpa using hx
      simpa using hm
    · intro hx
      have hm : x ∈ (cb.write_tmp ::ₘ (↑(descCells cb) : Multiset Nat) +
          (↑cb.read_from : Multiset Nat)) := by
        simpa using hx
      rw [h] at hm
      simpa using hm

end CircularBuffer

namespace CircularBufferIterator

/-- Iterator::next never touches the data or the slot indices it borrows:
it only decrements its own counter and returns a copy of the value. -/
theorem next_frame {it it2 : CircularBufferIterator α} {o : Option α}
    (h : it.next = some (o, it2)) : it2.data = it.data ∧ it2.revpos = it.revpos := by
  by_cases hc : it.count > 0
  · cases h1 : it.revpos[it.count - 1]? with
    | none =>
      simp only [next, if_pos hc, h1] at h
      cases h
    | some pos =>
      cases h2 : it.data[pos]? with
      | none =>
        simp only [next, if_pos hc, h1, h2] at h
        cases h
      | some v =>
        simp only [next, if_pos hc, h1, h2, Option.some.injEq, Prod.mk.injEq] at h
        obtain ⟨_, h4⟩ := h
        rw [← h4]
        exact ⟨rfl, rfl⟩
  · simp only [next, if_neg hc, Option.some.injEq, Prod.mk.injEq] at h
    obtain ⟨_, h4⟩ := h
    rw [← h4]
    exact ⟨rfl, rfl⟩

end CircularBufferIterator

/-- C2 counterexample: the claim as stated says a second drain with no
intervening put yields [].  On the code, after capacity 4 and puts 1,2,3,
the first drain yields [1,2,3] but the second drain again claims min(N,
seqno) descriptor entries (nothing records what was already consumed; the
max_read field is never used) and yields the three stale default cells
[0,0,0], which is not []. -/
theorem C2_second_drain_stale :
    CircularBuffer.seqRun 4 (0 : Int) [1, 2, 3] 2 = some [[1, 2, 3], [0, 0, 0]] ∧
    ([0, 0, 0] : List Int) ≠ [] := by
  exact ⟨by decide, by decide⟩

/-- C9 counterexample: the claim as stated promises that values yielded
across repeated drain calls, concatenated, never decrease.  On the code,
with one producer writing the strictly increasing sequence 1..1 and the
consumer draining twice after the writes complete (a legal schedule of the
two threads), the drains yield [1] and then the stale default [0]; the
concatenation [1, 0] decreases. -/
theorem C9_cross_drain_regression :
    CircularBuffer.seqRun 1 (0 : Int) [1] 2 = some [[1], [0]] ∧
    ([[1], [0]] : List (List Int)).flatten = [1, 0] ∧
    ¬ List.Sorted (· ≤ ·) ([1, 0] : List Int) := by
  refine ⟨by decide, by decide, ?_⟩
  intro h
  have := List.sorted_cons.mp h
  have h10 : (1 : Int) ≤ 0 := this.1 0 (by simp)
  omega

/-- C3 counterexample: the claim says the k-th put returns k; on the code
the very first put on a fresh buffer of capacity 4 returns 0, not 1,
because Rust fetch_add returns the value BEFORE the increment. -/
theorem C3_first_put_returns_zero :
    ((CircularBuffer.new 4 (0 : Int)).bind (fun cb => cb.put (fun _ => 1))).map Prod.snd =
      some 0 ∧ (0 : Nat) ≠ 1 := by
  exact ⟨by decide, by decide⟩

/-- C3 amended: every put returns the sequence number as it stood BEFORE the
increment, and bumps the stored counter by one modulo the word size; hence
the k-th put, counting from 1, returns k-1. -/
theorem C3_put_returns_preincrement :
    (∀ (α : Type) (cb cb2 : CircularBuffer α) (setter : α → α) (r : Nat),
      cb.put setter = some (cb2, r) →
      r = cb.seqno ∧ cb2.seqno = (cb.seqno + 1) % U64) ∧
    (∀ (α : Type) (N : Nat) (d : α) (vs : List α) (v : α)
        (cb0 cb cb2 : CircularBuffer α) (r : Nat),
      1 ≤ N → N * 2 + 1 ≤ 2 ^ 48 →
      CircularBuffer.new N d = some cb0 → cb0.putList vs = some cb →
      cb.put (fun _ => v) = some (cb2, r) → r = vs.length % U64) := by
  constructor
  · intro α cb cb2 setter r h
    obtain ⟨hr, hs, _, _, _⟩ := CircularBuffer.put_seqno h
    exact ⟨hr, hs⟩
  · intro α N d vs v cb0 cb cb2 r hN hsmall hnew hputs hput
    have hwf0 := CircularBuffer.new_WF N d hN hsmall hnew
    obtain ⟨cbX, hX, hwfX, hseqX, _⟩ := CircularBuffer.putList_seqno vs cb0 hwf0
    have hcb : cbX = cb := by
      rw [hX] at hputs
      exact Option.some.inj hputs
    subst hcb
    have hseq0 : cb0.seqno = 0 := by
      have hs := CircularBuffer.new_spec N d hN
      rw [hs] at hnew
      rw [← Option.some.inj hnew]
    obtain ⟨hr, _, _, _, _⟩ := CircularBuffer.put_seqno hput
    rw [hr, hseqX, hseq0, Nat.zero_add]

/-- C5: construction with capacity 0 fails fatally producing no object; for
every capacity N >= 1 and default d it succeeds and allocates exactly 2N+1
cells all holding d, N descriptor entries each carrying tag 0, a spare cell,
N recovery cells, and a sequence counter at 0; for machine-representable
capacities the three ownership sets partition the arena. -/
theorem C5_construction :
    (∀ (α : Type) (d : α), CircularBuffer.new 0 d = none) ∧
    (∀ (α : Type) (N : Nat) (d : α), 1 ≤ N →
      ∃ cb, CircularBuffer.new N d = some cb ∧
        cb.data = List.replicate (N * 2 + 1) d ∧
        cb.data.length = 2 * N + 1 ∧
        cb.write_to.length = N ∧
        (∀ i, i < N → ∃ f, cb.write_to[i]? = some f ∧ f % TAGMOD = 0) ∧
        cb.read_from.length = N ∧
        cb.write_tmp = 0 ∧
        cb.seqno = 0) ∧
    (∀ (α : Type) (N : Nat) (d : α) (cb : CircularBuffer α), 1 ≤ N → N * 2 + 1 ≤ 2 ^ 48 →
      CircularBuffer.new N d = some cb → CircularBuffer.Partition cb) := by
  refine ⟨?_, ?_, ?_⟩
  · intro α d
    simp [CircularBuffer.new]
  · intro α N d hN
    refine ⟨_, CircularBuffer.new_spec N d hN, rfl, ?_, by simp, ?_, by simp, rfl, rfl⟩
    · simp [List.length_replicate]
      omega
    · intro i hi
      refine ⟨((1 + i) * TAGMOD) % U64, ?_, flag_zero_tag (1 + i)⟩
      show ((List.range N).map (fun i => ((1 + i) * TAGMOD) % U64))[i]? = _
      simp [List.getElem?_map, List.getElem?_range, hi]
  · intro α N d cb hN hsmall hnew
    exact CircularBuffer.new_partition N d hN hsmall hnew

/-- C6: the sequence counter starts at 0; every put bumps it by exactly one
modulo the machine word; drain never changes it; after K puts it equals
K mod 2^64, the total count of accepted values. -/
theorem C6_seqno_counter :
    (∀ (α : Type) (N : Nat) (d : α) (cb : CircularBuffer α),
      CircularBuffer.new N d = some cb → cb.seqno = 0) ∧
    (∀ (α : Type) (cb cb2 : CircularBuffer α) (setter : α → α) (r : Nat),
      cb.put setter = some (cb2, r) → cb2.seqno = (cb.seqno + 1) % U64) ∧
    (∀ (α : Type) (cb cb2 : CircularBuffer α) (ok : Nat → Bool)
        (it : CircularBufferIterator α),
      cb.iter ok = some (cb2, it) → cb2.seqno = cb.seqno) ∧
    (∀ (α : Type) (N : Nat) (d : α) (vs : List α) (cb0 cb : CircularBuffer α),
      1 ≤ N → N * 2 + 1 ≤ 2 ^ 48 →
      CircularBuffer.new N d = some cb0 → cb0.putList vs = some cb →
      cb.seqno = vs.length % U64) := by
  refine ⟨?_, ?_, ?_, ?_⟩
  · intro α N d cb hnew
    by_cases hz : N = 0
    · subst hz
      simp [CircularBuffer.new] at hnew
    · have hs := CircularBuffer.new_spec N d (by omega)
      rw [hs] at hnew
      rw [← Option.some.inj hnew]
  · intro α cb cb2 setter r h
    exact (CircularBuffer.put_seqno h).2.1
  · intro α cb cb2 ok it h
    cases hloop : cb.iterLoop ok cb.seqno 0 with
    | none =>
      rw [CircularBuffer.iter, hloop] at h
      cases h
    | some p =>
      obtain ⟨cb3, n⟩ := p
      rw [CircularBuffer.iter] at h
      rw [hloop] at h
      simp only [Option.some.injEq, Prod.mk.injEq] at h
      obtain ⟨h1, _⟩ := h
      rw [← h1]
      exact (CircularBuffer.iterLoop_frame cb.seqno cb ok 0 cb3 n hloop).2.1
  · intro α N d vs cb0 cb hN hsmall hnew hputs
    have hwf0 := CircularBuffer.new_WF N d hN hsmall hnew
    obtain ⟨cbX, hX, _, hseqX, _⟩ := CircularBuffer.putList_seqno vs cb0 hwf0
    have hcb : cbX = cb := by
      rw [hX] at hputs
      exact Option.some.inj hputs
    subst hcb
    have hseq0 : cb0.seqno = 0 := by
      have hs := CircularBuffer.new_spec N d hN
      rw [hs] at hnew
      rw [← Option.some.inj hnew]
    rw [hseqX, hseq0, Nat.zero_add]

/-- C10: a drain call changes neither the sequence counter nor any payload
cell nor the spare index — only the descriptor words and the recovery array;
and iterating the drain view only decrements its private counter, never
touching the borrowed data or slot indices. -/
theorem C10_drain_frame :
    (∀ (α : Type) (cb cb2 : CircularBuffer α) (ok : Nat → Bool)
        (it : CircularBufferIterator α),
      cb.iter ok = some (cb2, it) →
      cb2.seqno = cb.seqno ∧ cb2.data = cb.data ∧ cb2.size = cb.size ∧
        cb2.write_tmp = cb.write_tmp ∧ cb2.max_read = cb.max_read ∧
        it.data = cb.data) ∧
    (∀ (α : Type) (it it2 : CircularBufferIterator α) (o : Option α),
      it.next = some (o, it2) → it2.data = it.data ∧ it2.revpos = it.revpos) := by
  constructor
  · intro α cb cb2 ok it h
    cases hloop : cb.iterLoop ok cb.seqno 0 with
    | none =>
      rw [CircularBuffer.iter, hloop] at h
      cases h
    | some p =>
      obtain ⟨cb3, n⟩ := p
      rw [CircularBuffer.iter] at h
      rw [hloop] at h
      simp only [Option.some.injEq, Prod.mk.injEq] at h
      obtain ⟨h1, h2⟩ := h
      obtain ⟨hd, hq, hz, hw, hm⟩ := CircularBuffer.iterLoop_frame cb.seqno cb ok 0 cb3 n hloop
      rw [← h1, ← h2]
      exact ⟨hq, hd, hz, hw, hm, hd⟩
  · intro α it it2 o h
    exact CircularBufferIterator.next_frame h

/-- C1: for every capacity N >= 1 (machine representable) and every sequence
of K sequential puts (K below the word size), a single drain after all puts
yields at most N items; the drain view is exactly the last min(K, N) written
values in original write order, so for K >= N it is exactly the N most
recent values; in particular capacity 4 with puts 1,2,3,4,5 drains to
[2,3,4,5]. -/
theorem C1_sequential_drain :
    (∀ (α : Type) (N : Nat) (d : α) (vs : List α) (cb0 cb : CircularBuffer α),
      1 ≤ N → N * 2 + 1 ≤ 2 ^ 48 → vs.length < U64 →
      CircularBuffer.new N d = some cb0 → cb0.putList vs = some cb →
      ∃ cb2 l, cb.drain CircularBuffer.noContention = some (cb2, l) ∧
        l.length ≤ N ∧
        l = vs.drop (vs.length - min vs.length N) ∧
        (N ≤ vs.length → l = vs.drop (vs.length - N))) ∧
    CircularBuffer.seqRun 4 (0 : Int) [1, 2, 3, 4, 5] 1 = some [[2, 3, 4, 5]] := by
  constructor
  · intro α N d vs cb0 cb hN hsmall hlen hnew hputs
    obtain ⟨cb2, l, hd, hlenl, hdrop⟩ :=
      CircularBuffer.drain_after_putList N d vs cb0 cb hN hsmall hlen hnew hputs
    refine ⟨cb2, l, hd, by omega, hdrop, ?_⟩
    intro hNK
    rw [hdrop]
    congr 1
    omega
  · decide

/-- C4: the partition invariant — spare cell, descriptor-referenced cells and
recovery cells split the 2N+1 arena indices into three disjoint covering
sets — holds after construction and is preserved by every put and by every
successful claim step of drain; the multiset formulation indeed means
pairwise disjointness plus full coverage. -/
theorem C4_partition_preserved :
    (∀ (α : Type) (N : Nat) (d : α) (cb : CircularBuffer α),
      1 ≤ N → N * 2 + 1 ≤ 2 ^ 48 → CircularBuffer.new N d = some cb →
      CircularBuffer.Partition cb) ∧
    (∀ (α : Type) (cb cb2 : CircularBuffer α) (setter : α → α) (r : Nat),
      CircularBuffer.WF cb → cb.put setter = some (cb2, r) →
      CircularBuffer.Partition cb2) ∧
    (∀ (α : Type) (cb cb2 : CircularBuffer α) (s count : Nat),
      CircularBuffer.WF cb → count < cb.size → cb.claimStep s count = some cb2 →
      CircularBuffer.Partition cb2) ∧
    (∀ (α : Type) (cb : CircularBuffer α), CircularBuffer.Partition cb →
      cb.write_tmp ∉ CircularBuffer.descCells cb ∧ cb.write_tmp ∉ cb.read_from ∧
      (∀ x, x ∈ CircularBuffer.descCells cb → x ∉ cb.read_from) ∧
      (∀ x, x < cb.size * 2 + 1 ↔
        (x = cb.write_tmp ∨ x ∈ CircularBuffer.descCells cb ∨ x ∈ cb.read_from))) := by
  refine ⟨?_, ?_, ?_, ?_⟩
  · intro α N d cb hN hsmall hnew
    exact CircularBuffer.new_partition N d hN hsmall hnew
  · intro α cb cb2 setter r hwf hput
    exact ((CircularBuffer.put_WF hwf hput).1).part
  · intro α cb cb2 s count hwf hc hstep
    exact ((CircularBuffer.claimStep_WF hwf hc hstep).1).part
  · intro α cb h
    exact h.disjoint_cover

/-- C7: from any well-formed state, with any contention pattern, the claim
loop walks backward and claims at most min(capacity, seqno) items; a CAS
failure at step j stops the walk with at most j items claimed; the drain
view yields exactly the claimed count of items. -/
theorem C7_drain_walk_bound :
    ∀ (α : Type) (cb : CircularBuffer α) (ok : Nat → Bool),
      CircularBuffer.WF cb →
      ∃ cb2 it l, cb.iter ok = some (cb2, it) ∧ it.toList = some l ∧
        l.length = it.count ∧ it.count ≤ min cb.size cb.seqno ∧
        (∀ j, ok j = false → it.count ≤ j) := by
  intro α cb ok hwf
  obtain ⟨cb2, n, hloop, hwf2, hd, hq, hz, hw, hm, hcn, hns, hsz, hfail⟩ :=
    CircularBuffer.iterLoop_props cb.seqno cb ok 0 hwf
  have hiter : cb.iter ok = some (cb2, ⟨cb2.data, cb2.read_from, n⟩) := by
    rw [CircularBuffer.iter, hloop]
  have hnsize : n ≤ cb.size := hsz (by omega)
  have hin : ∀ i, i < n →
      ∃ p v, (⟨cb2.data, cb2.read_from, n⟩ :
        CircularBufferIterator α).revpos[i]? = some p ∧
        (⟨cb2.data, cb2.read_from, n⟩ :
          CircularBufferIterator α).data[p]? = some v := by
    intro i hi
    have hil : i < cb2.read_from.length := by
      rw [hwf2.read_from_len, hz]
      omega
    refine ⟨cb2.read_from.get ⟨i, hil⟩, ?_⟩
    have hp : cb2.read_from[i]? = some (cb2.read_from.get ⟨i, hil⟩) :=
      List.getElem?_eq_getElem hil
    have hmem : cb2.read_from.get ⟨i, hil⟩ ∈ cb2.read_from :=
      List.getElem?_mem hp
    have hplt : cb2.read_from.get ⟨i, hil⟩ < cb2.data.length := by
      rw [hwf2.data_len]
      exact hwf2.part.read_lt hmem
    refine ⟨cb2.data.get ⟨_, hplt⟩, hp, List.getElem?_eq_getElem hplt⟩
  obtain ⟨l, htl, hlenl, _⟩ := CircularBufferIterator.toList_getElem n
    ⟨cb2.data, cb2.read_from, n⟩ rfl hin
  refine ⟨cb2, ⟨cb2.data, cb2.read_from, n⟩, l, hiter, htl, hlenl,
    show n ≤ min cb.size cb.seqno by omega, ?_⟩
  intro j hj
  exact hfail j hj (by omega)

/-- C8: in a well-formed state the three internal indices are always inside
their arrays — the spare cell index is a valid arena index, the descriptor
position seqno mod N is a valid descriptor index, and every loop count below
capacity is a valid recovery index — so put and iter never reach their
out-of-bounds panic branches. -/
theorem C8_no_oob_panic :
    ∀ (α : Type) (cb : CircularBuffer α) (setter : α → α) (ok : Nat → Bool),
      CircularBuffer.WF cb →
      cb.write_tmp < cb.data.length ∧
      cb.seqno % cb.size < cb.write_to.length ∧
      (∀ count, count < cb.size → count < cb.read_from.length) ∧
      (cb.put setter).isSome ∧ (cb.iter ok).isSome := by
  intro α cb setter ok hwf
  refine ⟨?_, ?_, ?_, ?_, ?_⟩
  · rw [hwf.data_len]
    exact hwf.part.write_tmp_lt
  · rw [hwf.write_to_len]
    exact Nat.mod_lt _ (by have := hwf.size_pos; omega)
  · intro c hc
    rw [hwf.read_from_len]
    exact hc
  · obtain ⟨v0, f, _, _, heq⟩ := CircularBuffer.put_eq_some cb setter hwf
    rw [heq]
    rfl
  · obtain ⟨cb2, n, hloop, _⟩ := CircularBuffer.iterLoop_props cb.seqno cb ok 0 hwf
    rw [CircularBuffer.iter, hloop]
    rfl

/-- Witness for C1: capacity 1, single put of 5, concrete hypotheses checked
and the general theorem applied there. -/
theorem C1_sequential_drain_witness :
    (1 : Nat) ≤ 1 ∧ 1 * 2 + 1 ≤ 2 ^ 48 ∧ ([5] : List Int).length < U64 ∧
    CircularBuffer.new 1 (0 : Int) = some exB0 ∧ exB0.putList [5] = some exB1 ∧
    (∃ cb2 l, exB1.drain CircularBuffer.noContention = some (cb2, l) ∧
      l.length ≤ 1 ∧
      l = ([5] : List Int).drop (([5] : List Int).length - min ([5] : List Int).length 1) ∧
      (1 ≤ ([5] : List Int).length →
        l = ([5] : List Int).drop (([5] : List Int).length - 1))) :=
  ⟨by decide, by decide, by decide, by decide, by decide,
    C1_sequential_drain.1 Int 1 0 [5] exB0 exB1 (by decide) (by decide) (by decide)
      (by decide) (by decide)⟩

/-- Witness for the amended C3: on a fresh capacity-1 buffer the first put
returns 0, the counter before the increment. -/
theorem C3_put_returns_preincrement_witness :
    exB0.put (fun _ => (5 : Int)) = some (exB1, 0) ∧
    ((0 : Nat) = exB0.seqno ∧ exB1.seqno = (exB0.seqno + 1) % U64) ∧
    (0 : Nat) = ([] : List Int).length % U64 :=
  ⟨by decide,
   C3_put_returns_preincrement.1 Int exB0 exB1 (fun _ => 5) 0 (by decide),
   C3_put_returns_preincrement.2 Int 1 0 [] 5 exB0 exB0 exB1 0 (by decide) (by decide)
     (by decide) (by decide) (by decide)⟩

/-- Witness for C4: the partition holds for the fresh capacity-1 buffer, is
preserved by its first put and by the claim step of the following drain, and
unfolds to disjointness plus coverage. -/
theorem C4_partition_preserved_witness :
    CircularBuffer.Partition exB0 ∧ CircularBuffer.Partition exB1 ∧
    CircularBuffer.Partition exB2 ∧
    (exB0.write_tmp ∉ CircularBuffer.descCells exB0 ∧
      exB0.write_tmp ∉ exB0.read_from ∧
      (∀ x, x ∈ CircularBuffer.descCells exB0 → x ∉ exB0.read_from) ∧
      (∀ x, x < exB0.size * 2 + 1 ↔
        (x = exB0.write_tmp ∨ x ∈ CircularBuffer.descCells exB0 ∨ x ∈ exB0.read_from))) :=
  ⟨C4_partition_preserved.1 Int 1 0 exB0 (by decide) (by decide) (by decide),
   C4_partition_preserved.2.1 Int exB0 exB1 (fun _ => 5) 0
     (CircularBuffer.new_WF 1 0 (by decide) (by decide) (by decide))
     (by decide),
   C4_partition_preserved.2.2.1 Int exB1 exB2 1 0
     ((CircularBuffer.put_WF
       (CircularBuffer.new_WF 1 (0 : Int) (by decide) (by decide) (by decide))
       (by decide : exB0.put (fun _ => (5 : Int)) = some (exB1, 0))).1)
     (by decide) (by decide),
   C4_partition_preserved.2.2.2 Int exB0
     (C4_partition_preserved.1 Int 1 0 exB0 (by decide) (by decide) (by decide))⟩

/-- Witness for C5: capacity 0 fails, capacity 1 succeeds with the stated
layout, and the fresh capacity-1 buffer satisfies the partition. -/
theorem C5_construction_witness :
    CircularBuffer.new 0 (0 : Int) = none ∧
    (∃ cb, CircularBuffer.new 1 (0 : Int) = some cb ∧
      cb.data = List.replicate (1 * 2 + 1) (0 : Int) ∧
      cb.data.length = 2 * 1 + 1 ∧
      cb.write_to.length = 1 ∧
      (∀ i, i < 1 → ∃ f, cb.write_to[i]? = some f ∧ f % TAGMOD = 0) ∧
      cb.read_from.length = 1 ∧
      cb.write_tmp = 0 ∧
      cb.seqno = 0) ∧
    CircularBuffer.Partition exB0 :=
  ⟨C5_construction.1 Int 0,
   C5_construction.2.1 Int 1 0 (by decide),
   C5_construction.2.2 Int 1 0 exB0 (by decide) (by decide) (by decide)⟩

/-- Witness for C6 on the concrete capacity-1 run: counter 0 after new, 1
after the put, unchanged by the drain, and equal to the number of puts. -/
theorem C6_seqno_counter_witness :
    exB0.seqno = 0 ∧ exB1.seqno = (exB0.seqno + 1) % U64 ∧
    exB2.seqno = exB1.seqno ∧ exB1.seqno = ([5] : List Int).length % U64 :=
  ⟨C6_seqno_counter.1 Int 1 0 exB0 (by decide),
   C6_seqno_counter.2.1 Int exB0 exB1 (fun _ => 5) 0 (by decide),
   C6_seqno_counter.2.2.1 Int exB1 exB2 CircularBuffer.noContention exIt (by decide),
   C6_seqno_counter.2.2.2 Int 1 0 [5] exB0 exB1 (by decide) (by decide) (by decide)
     (by decide)⟩

/-- Witness for C7 on the concrete buffer exB1 (capacity 1, one item). -/
theorem C7_drain_walk_bound_witness :
    ∃ cb2 it l, exB1.iter CircularBuffer.noContention = some (cb2, it) ∧
      it.toList = some l ∧ l.length = it.count ∧
      it.count ≤ min exB1.size exB1.seqno ∧
      (∀ j, CircularBuffer.noContention j = false → it.count ≤ j) :=
  C7_drain_walk_bound Int exB1 CircularBuffer.noContention
    ((CircularBuffer.put_WF
      (CircularBuffer.new_WF 1 (0 : Int) (by decide) (by decide) (by decide))
      (by decide : exB0.put (fun _ => (5 : Int)) = some (exB1, 0))).1)

/-- Witness for C8 on the concrete buffer exB1. -/
theorem C8_no_oob_panic_witness :
    exB1.write_tmp < exB1.data.length ∧
    exB1.seqno % exB1.size < exB1.write_to.length ∧
    (∀ count, count < exB1.size → count < exB1.read_from.length) ∧
    (exB1.put (fun _ => (6 : Int))).isSome ∧
    (exB1.iter CircularBuffer.noContention).isSome :=
  C8_no_oob_panic Int exB1 (fun _ => 6) CircularBuffer.noContention
    ((CircularBuffer.put_WF
      (CircularBuffer.new_WF 1 (0 : Int) (by decide) (by decide) (by decide))
      (by decide : exB0.put (fun _ => (5 : Int)) = some (exB1, 0))).1)

/-- Witness for C10 on the concrete drain of exB1 and one next call on its
view. -/
theorem C10_drain_frame_witness :
    (exB2.seqno = exB1.seqno ∧ exB2.data = exB1.data ∧ exB2.size = exB1.size ∧
      exB2.write_tmp = exB1.write_tmp ∧ exB2.max_read = exB1.max_read ∧
      exIt.data = exB1.data) ∧
    ((⟨[5, 0, 0], [0], 0⟩ : CircularBufferIterator Int).data = exIt.data ∧
      (⟨[5, 0, 0], [0], 0⟩ : CircularBufferIterator Int).revpos = exIt.revpos) :=
  ⟨C10_drain_frame.1 Int exB1 exB2 CircularBuffer.noContention exIt (by decide),
   C10_drain_frame.2 Int exIt ⟨[5, 0, 0], [0], 0⟩ (some 5) (by decide)⟩

namespace CircularBuffer

/-- From any well-formed state, an uncontended drain succeeds, keeps the
state well formed, leaves seqno and size unchanged, and claims exactly
min(capacity, seqno) items — the loop never persists what was consumed, so
this count does not shrink on a repeated drain. -/
theorem drain_noContention_spec (cb : CircularBuffer α) (h : WF cb) :
    ∃ cb2 l, cb.drain noContention = some (cb2, l) ∧ WF cb2 ∧
      cb2.seqno = cb.seqno ∧ cb2.size = cb.size ∧
      l.length = min cb.size cb.seqno := by
  obtain ⟨cbF, hloop, hFdata, hFlen, hFc⟩ :=
    iterLoop_drain_steps cb cb.seqno cb.size (min cb.seqno cb.size) h.size_pos rfl
      (min cb.seqno cb.size) 0 cb (by omega) (by omega) rfl rfl
      h.write_to_len h.read_from_len
      (fun p hp _ => rfl) (fun i hi => absurd hi (by omega))
  rw [Nat.sub_zero] at hloop
  obtain ⟨cb2, n, hloop2, hwf2, hd2, hq2, hz2, _, _, _, _, _, _⟩ :=
    iterLoop_props cb.seqno cb noContention 0 h
  rw [hloop] at hloop2
  have hp2 := Option.some.inj hloop2
  rw [Prod.ext_iff] at hp2
  obtain ⟨hcbF, hnM⟩ := hp2
  subst hcbF
  have hiter : cb.iter noContention =
      some (cbF, ⟨cbF.data, cbF.read_from, min cb.seqno cb.size⟩) := by
    rw [iter, hloop]
  have hin : ∀ i, i < min cb.seqno cb.size →
      ∃ p v, (⟨cbF.data, cbF.read_from, min cb.seqno cb.size⟩ :
        CircularBufferIterator α).revpos[i]? = some p ∧
        (⟨cbF.data, cbF.read_from, min cb.seqno cb.size⟩ :
          CircularBufferIterator α).data[p]? = some v := by
    intro i hi
    have hil : i < cbF.read_from.length := by
      rw [hFlen]
      omega
    have hp : cbF.read_from[i]? = some (cbF.read_from.get ⟨i, hil⟩) :=
      List.getElem?_eq_getElem hil
    have hmem : cbF.read_from.get ⟨i, hil⟩ ∈ cbF.read_from :=
      List.getElem?_mem hp
    have hplt : cbF.read_from.get ⟨i, hil⟩ < cbF.data.length := by
      rw [hwf2.data_len, hz2]
      have := hwf2.part.read_lt hmem
      rw [hz2] at this
      exact this
    exact ⟨cbF.read_from.get ⟨i, hil⟩, cbF.data.get ⟨_, hplt⟩, hp,
      List.getElem?_eq_getElem hplt⟩
  obtain ⟨l, htl, hlenl, _⟩ := CircularBufferIterator.toList_getElem
    (min cb.seqno cb.size) ⟨cbF.data, cbF.read_from, min cb.seqno cb.size⟩ rfl hin
  have hdrain : cb.drain noContention = some (cbF, l) := by
    rw [drain, hiter]
    simp only [htl]
  exact ⟨cbF, l, hdrain, hwf2, hq2, hz2, by rw [hlenl]; omega⟩

end CircularBuffer

/-- C2 (amended): a second drain with no intervening put is NOT empty — the
drain loop never persists the consumed sequence number (the local working
counter is discarded and the max_read field is never used), so the second
call again claims min(capacity, seqno) items and yields the stale contents
of the cells the first drain deposited into the descriptors; with capacity 4
and puts 1,2,3 the first drain yields [1,2,3] and the second [0,0,0]. -/
theorem C2_double_drain_count :
    (∀ (α : Type) (cb : CircularBuffer α), CircularBuffer.WF cb →
      ∃ cb1 l1 cb2 l2, cb.drain CircularBuffer.noContention = some (cb1, l1) ∧
        cb1.drain CircularBuffer.noContention = some (cb2, l2) ∧
        l1.length = min cb.size cb.seqno ∧
        l2.length = min cb.size cb.seqno) ∧
    CircularBuffer.seqRun 4 (0 : Int) [1, 2, 3] 2 = some [[1, 2, 3], [0, 0, 0]] := by
  constructor
  · intro α cb hwf
    obtain ⟨cb1, l1, hd1, hwf1, hseq1, hsize1, hlen1⟩ :=
      CircularBuffer.drain_noContention_spec cb hwf
    obtain ⟨cb2, l2, hd2, hwf2, hseq2, hsize2, hlen2⟩ :=
      CircularBuffer.drain_noContention_spec cb1 hwf1
    refine ⟨cb1, l1, cb2, l2, hd1, hd2, hlen1, ?_⟩
    rw [hlen2, hseq1, hsize1]
  · decide

/-- Witness for the amended C2 on the concrete capacity-1 buffer with one
published item: both drains claim exactly one item. -/
theorem C2_double_drain_count_witness :
    ∃ cb1 l1 cb2 l2, exB1.drain CircularBuffer.noContention = some (cb1, l1) ∧
      cb1.drain CircularBuffer.noContention = some (cb2, l2) ∧
      l1.length = min exB1.size exB1.seqno ∧
      l2.length = min exB1.size exB1.seqno :=
  C2_double_drain_count.1 Int exB1
    ((CircularBuffer.put_WF
      (CircularBuffer.new_WF 1 (0 : Int) (by decide) (by decide) (by decide))
      (by decide : exB0.put (fun _ => (5 : Int)) = some (exB1, 0))).1)

/-- C9 (amended): after the producer finishes writing a non-decreasing
sequence, each SINGLE uncontended drain yields a non-decreasing list (it is
the last min(K, N) written values in write order); the cross-drain
concatenation, however, can decrease, as the counterexample shows. -/
theorem C9_single_drain_sorted :
    ∀ (N : Nat) (d : Int) (vs : List Int) (cb0 cb : CircularBuffer Int),
      1 ≤ N → N * 2 + 1 ≤ 2 ^ 48 → vs.length < U64 →
      List.Sorted (· ≤ ·) vs →
      CircularBuffer.new N d = some cb0 → cb0.putList vs = some cb →
      ∃ cb2 l, cb.drain CircularBuffer.noContention = some (cb2, l) ∧
        List.Sorted (· ≤ ·) l := by
  intro N d vs cb0 cb hN hsmall hlen hsort hnew hputs
  obtain ⟨cb2, l, hd, hlenl, hdrop⟩ :=
    CircularBuffer.drain_after_putList N d vs cb0 cb hN hsmall hlen hnew hputs
  refine ⟨cb2, l, hd, ?_⟩
  rw [hdrop]
  exact List.Pairwise.drop hsort

/-- Witness for the amended C9: capacity 1, single write 5, the drain view
[5] is sorted. -/
theorem C9_single_drain_sorted_witness :
    ∃ cb2 l, exB1.drain CircularBuffer.noContention = some (cb2, l) ∧
      List.Sorted (· ≤ ·) l :=
  C9_single_drain_sorted 1 0 [5] exB0 exB1 (by decide) (by decide) (by decide)
    (by decide) (by decide) (by decide)
